/-
Verification of the ku-polls voting core (polls/models.py, polls/views.py).

Shallow embedding conventions:
- zone-aware timestamps are modelled as integers (`Time := Int`); both
  `timezone.now()` and `timezone.localtime()` denote the current instant and
  are passed explicitly as a `now` parameter;
- database tables are lists of rows in insertion (primary-key) order;
- foreign keys are stored as the referenced row's integer primary key;
- an ORM `filter(...)` is `List.filter`, `.first()` / `.get(pk=...)` scan in
  insertion order (`List.find?`), `.count()` is the filtered length;
- `Vote.save()` after mutating a fetched row writes the row back in place,
  which the embedding renders as replacing the first matching list element.
-/
import Mathlib

namespace KuPolls

/-- Timestamps (zone-aware datetimes compared as absolute instants). -/
abbrev Time := Int

/-- polls/models.py `Question`: `question_text`, `pub_date` (default now),
`end_date` (nullable). -/
structure Question where
  id : Nat
  question_text : String
  pub_date : Time
  end_date : Option Time
deriving DecidableEq

/-- polls/models.py `Question.is_published`: `now >= self.pub_date`. -/
def Question.is_published (q : Question) (now : Time) : Bool :=
  now ≥ q.pub_date

/-- polls/models.py `Question.can_vote`: `if self.end_date:` (a datetime is
truthy, `None` is falsy) `return self.pub_date <= now <= self.end_date`;
otherwise `return now >= self.pub_date`. -/
def Question.can_vote (q : Question) (now : Time) : Bool :=
  match q.end_date with
  | some e => q.pub_date ≤ now && now ≤ e
  | none => now ≥ q.pub_date

/-- polls/models.py `Choice`: FK to its `Question` plus `choice_text`; the
stored `votes` integer column is commented out in the source. -/
structure Choice where
  id : Nat
  question : Nat
  choice_text : String
deriving DecidableEq

/-- polls/models.py `Vote`: FK to the `User` and to the `Choice`. -/
structure Vote where
  user : Nat
  choice : Nat
deriving DecidableEq

/-- The relational store: one list of rows per table, in insertion order. -/
structure DB where
  questions : List Question
  choices : List Choice
  votes : List Vote
deriving DecidableEq

/-- polls/models.py `Choice.votes` (a `@property`):
`Vote.objects.filter(choice=self).count()` — recomputed from the Vote table
on every read. -/
def Choice.votes (c : Choice) (db : DB) : Nat :=
  (db.votes.filter (fun v => v.choice == c.id)).length

/-- `get_object_or_404(Question, pk=question_id)`: resolve a question pk. -/
def getQuestion (db : DB) (pk : Nat) : Option Question :=
  db.questions.find? (fun q => q.id == pk)

/-- The row predicate of
`Vote.objects.filter(user=request.user, choice__question=question)`:
the vote's user matches and the vote's choice row belongs to the question. -/
def isVoteFor (choices : List Choice) (u qid : Nat) (v : Vote) : Bool :=
  v.user == u && ((choices.find? (fun c => c.id == v.choice)).map Choice.question == some qid)

/-- Replace the first element satisfying `p` by its image under `f`
(the ORM `previous_vote.save()` writes the fetched row back in place). -/
def updateFirst (p : α → Bool) (f : α → α) : List α → List α
  | [] => []
  | x :: xs => if p x then f x :: xs else x :: updateFirst p f xs

/-- Outcomes of the `vote` view in polls/views.py: 404, redirect to the
index, re-render of the detail template with `error_message`, or redirect
to the results page after `messages.success`. -/
inductive VoteResult where
  | notFound
  | redirectIndex
  | renderDetailError (error_message : String)
  | redirectResults (question_id : Nat) (message : String)
deriving DecidableEq

/-- Whether a `vote` outcome is the success redirect. -/
def VoteResult.isSuccess : VoteResult → Bool
  | .redirectResults _ _ => true
  | _ => false

/-- polls/views.py `vote(request, question_id)`: resolve the question or 404;
redirect to the index if `can_vote` is false; re-render the detail page if no
choice was submitted or the choice does not belong to the question; otherwise
update the user's existing vote row in place, or create a new one, and
redirect to the results page with a success message. -/
def vote (db : DB) (user question_id : Nat) (choice_id : Option Nat) (now : Time) :
    VoteResult × DB :=
  match getQuestion db question_id with
  | none => (.notFound, db)
  | some question =>
    if !(question.can_vote now) then (.redirectIndex, db)
    else
      match choice_id with
      | none => (.renderDetailError "You didn't select a choice.", db)
      | some cid =>
        match db.choices.find? (fun c => c.id == cid && c.question == question.id) with
        | none => (.renderDetailError "Invalid choice selected.", db)
        | some selected_choice =>
          let success : VoteResult := .redirectResults question.id
            ("Your vote for " ++ selected_choice.choice_text ++ " has been recorded.")
          match db.votes.find? (isVoteFor db.choices user question.id) with
          | some _ =>
            let repointed := updateFirst (isVoteFor db.choices user question.id)
              (fun v => { v with choice := selected_choice.id }) db.votes
            (success, { db with votes := repointed })
          | none =>
            (success, { db with votes := db.votes ++ [{ user := user, choice := selected_choice.id }] })

/-- polls/views.py `IndexView.get_queryset` filter:
`Question.objects.filter(pub_date__lte=timezone.localtime())`. -/
def indexFilter (db : DB) (now : Time) : List Question :=
  db.questions.filter (fun q => decide (q.pub_date ≤ now))

/-- The `order_by('-pub_date')` sort key: adjacent rows have nonincreasing
`pub_date`. -/
def sortedByPubDateDesc (l : List Question) : Prop :=
  l.Chain' (fun a b => b.pub_date ≤ a.pub_date)

/-- Semantics of `IndexView.get_queryset()`: SQL `ORDER BY pub_date DESC`
returns SOME permutation of the filtered rows that is sorted by descending
`pub_date`; the relative order of rows with equal `pub_date` is left
unspecified by SQL (the query has no secondary sort key), so the result is
modelled as a relation rather than a function. -/
def IsIndexQueryset (db : DB) (now : Time) (out : List Question) : Prop :=
  out.Perm (indexFilter db now) ∧ sortedByPubDateDesc out

/-- Per-request application state beyond the database: the session store
(string keys to string values) and the `django.contrib.messages` queue. -/
structure AppState where
  db : DB
  session : List (String × String)
  messages : List String
deriving DecidableEq

/-- The `vote` view's full effect on the application state: on the success
path `messages.success(request, ...)` appends the confirmation to the
messages queue; no path writes to the session. -/
def voteApp (st : AppState) (user question_id : Nat) (choice_id : Option Nat) (now : Time) :
    VoteResult × AppState :=
  match vote st.db user question_id choice_id now with
  | (.redirectResults qid msg, db2) =>
    (.redirectResults qid msg, { st with db := db2, messages := st.messages ++ [msg] })
  | (r, db2) => (r, { st with db := db2 })

/-- polls/views.py `results(request, question_id)`: resolve the question or
404, then read `request.session.get(f'voted_for_{question.id}', None)` and
render with that value as `voted_choice`. -/
def results (st : AppState) (question_id : Nat) : Option (Question × Option String) :=
  match getQuestion st.db question_id with
  | none => none
  | some question =>
    some (question, st.session.lookup ("voted_for_" ++ toString question.id))

/-- A vote request: acting user, question pk, submitted choice pk, time. -/
abbrev VoteReq := Nat × Nat × Option Nat × Time

/-- Run a sequence of vote requests against the application state. -/
def applyVotes (st : AppState) : List VoteReq → AppState
  | [] => st
  | (u, qid, cid, now) :: rest => applyVotes (voteApp st u qid cid now).2 rest

/-- Run a sequence of (choice pk, time) submissions by user `u` on question
`qid` against the database. -/
def submitAll (db : DB) (u qid : Nat) : List (Nat × Time) → DB
  | [] => db
  | (cid, now) :: rest => submitAll (vote db u qid (some cid) now).2 u qid rest

/-- Every submission in the sequence takes the success path. -/
def allSucceed (db : DB) (u qid : Nat) : List (Nat × Time) → Bool
  | [] => true
  | (cid, now) :: rest =>
    (vote db u qid (some cid) now).1.isSuccess &&
      allSucceed (vote db u qid (some cid) now).2 u qid rest

/-! Generic list lemmas used to reason about the vote upsert. -/

theorem find?_id_eq (l : List Choice) (c : Choice)
    (hnd : (l.map Choice.id).Nodup) (hc : c ∈ l) :
    l.find? (fun x => x.id == c.id) = some c := by
  induction l with
  | nil => cases hc
  | cons d t ih =>
    rw [List.map_cons, List.nodup_cons] at hnd
    rcases List.mem_cons.mp hc with rfl | ht
    · exact List.find?_cons_of_pos _ (by simp)
    · have hne : (d.id == c.id) = false := by
        simp only [beq_eq_false_iff_ne, ne_eq]
        intro h
        exact hnd.1 (h ▸ List.mem_map_of_mem Choice.id ht)
      simp only [List.find?, hne]
      exact ih hnd.2 ht

theorem filter_singleton_decomp {α : Type} (p : α → Bool) (l : List α) (v : α)
    (h : l.filter p = [v]) :
    ∃ l₁ l₂, l = l₁ ++ v :: l₂ ∧ (∀ x ∈ l₁, p x = false) ∧ (∀ x ∈ l₂, p x = false) := by
  induction l with
  | nil => simp at h
  | cons a t ih =>
    rw [List.filter_cons] at h
    by_cases hpa : p a
    · rw [if_pos hpa] at h
      obtain ⟨rfl, htn⟩ := List.cons_eq_cons.mp h
      refine ⟨[], t, rfl, by simp, fun x hx => ?_⟩
      have := List.filter_eq_nil_iff.mp htn x hx
      simpa using this
    · rw [if_neg hpa] at h
      obtain ⟨l₁, l₂, rfl, h1, h2⟩ := ih h
      exact ⟨a :: l₁, l₂, rfl,
        fun x hx => by
          rcases List.mem_cons.mp hx with rfl | hx'
          · simpa using hpa
          · exact h1 x hx', h2⟩

theorem updateFirst_decomp {α : Type} (p : α → Bool) (f : α → α) (l₁ : List α) (v : α)
    (l₂ : List α) (h1 : ∀ x ∈ l₁, p x = false) (hv : p v = true) :
    updateFirst p f (l₁ ++ v :: l₂) = l₁ ++ f v :: l₂ := by
  induction l₁ with
  | nil => simp [updateFirst, hv]
  | cons a t ih =>
    have ha : p a = false := h1 a (List.mem_cons_self a t)
    simp [updateFirst, ha, ih (fun x hx => h1 x (List.mem_cons_of_mem a hx))]

theorem filter_decomp_eq {α : Type} (p : α → Bool) (l₁ : List α) (v : α) (l₂ : List α)
    (h1 : ∀ x ∈ l₁, p x = false) (h2 : ∀ x ∈ l₂, p x = false) (hv : p v = true) :
    (l₁ ++ v :: l₂).filter p = [v] := by
  rw [List.filter_append, List.filter_cons, if_pos hv,
    List.filter_eq_nil_iff.mpr (fun x hx => by simp [h1 x hx]),
    List.filter_eq_nil_iff.mpr (fun x hx => by simp [h2 x hx])]
  rfl

/-- Successful runs of `vote` resolve the question and the selected choice,
pass the `can_vote` gate, and either repoint the user's first matching vote
row or append a fresh row. -/
theorem vote_success_shape (db : DB) (u qid cid : Nat) (now : Time)
    (hs : (vote db u qid (some cid) now).1.isSuccess = true) :
    ∃ question selected_choice,
      getQuestion db qid = some question ∧
      question.id = qid ∧
      selected_choice ∈ db.choices ∧ selected_choice.id = cid ∧
      selected_choice.question = qid ∧
      question.can_vote now = true ∧
      (db.votes.find? (isVoteFor db.choices u qid) = none →
        (vote db u qid (some cid) now).2 =
          { db with votes := db.votes ++ [{ user := u, choice := cid }] }) ∧
      (∀ w, db.votes.find? (isVoteFor db.choices u qid) = some w →
        (vote db u qid (some cid) now).2 =
          { db with votes := (updateFirst (isVoteFor db.choices u qid)
              (fun v => { v with choice := cid }) db.votes) }) := by
  rcases hq : getQuestion db qid with _ | question
  · simp [vote, hq, VoteResult.isSuccess] at hs
  have hqid : question.id = qid := by
    have hfq : db.questions.find? (fun q => q.id == qid) = some question := hq
    simpa [beq_iff_eq] using List.find?_some hfq
  rcases hcv : question.can_vote now with _ | _
  · simp [vote, hq, hcv, VoteResult.isSuccess] at hs
  rcases hfc : db.choices.find? (fun c => c.id == cid && c.question == question.id)
    with _ | selected
  · simp [vote, hq, hcv, hfc, VoteResult.isSuccess] at hs
  have hsel := List.find?_some hfc
  simp only [Bool.and_eq_true, beq_iff_eq] at hsel
  refine ⟨question, selected, rfl, hqid, List.mem_of_find?_eq_some hfc,
    hsel.1, hqid ▸ hsel.2, hcv, ?_, ?_⟩
  · intro hpn
    have hsid : selected.id = cid := hsel.1
    subst hqid
    subst hsid
    simp [vote, hq, hcv, hfc, hpn]
  · intro w hpw
    have hsid : selected.id = cid := hsel.1
    subst hqid
    subst hsid
    simp [vote, hq, hcv, hfc, hpw]

/-- The current vote rows of user `u` that belong to question `qid`. -/
def userQVotes (db : DB) (u qid : Nat) : List Vote :=
  db.votes.filter (isVoteFor db.choices u qid)

theorem isVoteFor_repointed (choices : List Choice) (u qid : Nat) (selected : Choice)
    (hnd : (choices.map Choice.id).Nodup) (hmem : selected ∈ choices)
    (hq : selected.question = qid) (w : Vote) (hw : w.user = u) :
    isVoteFor choices u qid { w with choice := selected.id } = true := by
  simp [isVoteFor, hw, find?_id_eq choices selected hnd hmem, hq]

/-- One successful submission: the questions and choices tables are
untouched; afterwards user `u` has exactly the single row `⟨u, cid⟩` for the
question; per-choice row counts change by removing the previously pointed-to
row (if any) and adding one for `cid`; and if the user's row already was
`⟨u, cid⟩` the state is completely unchanged. -/
theorem vote_step (db : DB) (u qid cid : Nat) (now : Time)
    (hnd : (db.choices.map Choice.id).Nodup)
    (hcount : (db.votes.filter (isVoteFor db.choices u qid)).length ≤ 1)
    (hs : (vote db u qid (some cid) now).1.isSuccess = true) :
    ((vote db u qid (some cid) now).2.questions = db.questions) ∧
    ((vote db u qid (some cid) now).2.choices = db.choices) ∧
    ((vote db u qid (some cid) now).2.votes.filter (isVoteFor db.choices u qid)
        = [{ user := u, choice := cid }]) ∧
    (∀ x : Nat,
      (vote db u qid (some cid) now).2.votes.countP (fun v => v.choice == x)
        + (match db.votes.filter (isVoteFor db.choices u qid) with
           | [] => 0
           | w :: _ => if w.choice = x then 1 else 0)
      = db.votes.countP (fun v => v.choice == x) + (if cid = x then 1 else 0)) ∧
    (db.votes.filter (isVoteFor db.choices u qid) = [{ user := u, choice := cid }] →
      (vote db u qid (some cid) now).2 = db) := by
  obtain ⟨question, selected, hq, hqid, hmem, hsid, hsq, hcv, hnew, hupd⟩ :=
    vote_success_shape db u qid cid now hs
  have pnew : isVoteFor db.choices u qid { user := u, choice := cid } = true := by
    rw [← hsid]
    exact isVoteFor_repointed db.choices u qid selected hnd hmem hsq
      { user := u, choice := selected.id } rfl
  rcases hprev : db.votes.find? (isVoteFor db.choices u qid) with _ | w
  · -- no previous vote row: a fresh row is appended
    have hnone : ∀ x ∈ db.votes, ¬ isVoteFor db.choices u qid x :=
      List.find?_eq_none.mp hprev
    have hfil : db.votes.filter (isVoteFor db.choices u qid) = [] :=
      List.filter_eq_nil_iff.mpr hnone
    rw [hnew hprev]
    refine ⟨rfl, rfl, ?_, ?_, ?_⟩
    · rw [List.filter_append, hfil, List.filter_cons, if_pos pnew]
      rfl
    · intro x
      rw [hfil]
      simp only [List.countP_append, List.countP_cons, List.countP_nil, beq_iff_eq]
      split_ifs <;> omega
    · intro hone
      rw [hfil] at hone
      exact absurd hone (by simp)
  · -- a previous row exists and is repointed in place
    have hpw : isVoteFor db.choices u qid w = true := List.find?_some hprev
    have hwmem : w ∈ db.votes := List.mem_of_find?_eq_some hprev
    have hwin : w ∈ db.votes.filter (isVoteFor db.choices u qid) :=
      List.mem_filter.mpr ⟨hwmem, hpw⟩
    have hlen1 : (db.votes.filter (isVoteFor db.choices u qid)).length = 1 := by
      have : 0 < (db.votes.filter (isVoteFor db.choices u qid)).length :=
        List.length_pos_of_mem hwin
      omega
    obtain ⟨z, hz⟩ := List.length_eq_one.mp hlen1
    have hwz : w = z := by
      rw [hz] at hwin
      simpa using hwin
    subst hwz
    obtain ⟨l₁, l₂, hdec, h1, h2⟩ :=
      filter_singleton_decomp (isVoteFor db.choices u qid) db.votes w hz
    have hwu : w.user = u := by
      have := hpw
      simp only [isVoteFor, Bool.and_eq_true, beq_iff_eq] at this
      exact this.1
    have hfw : ({ user := w.user, choice := cid } : Vote)
        = ({ user := u, choice := cid } : Vote) := by
      rw [hwu]
    have hdb2 := hupd w hprev
    rw [hdec] at hdb2
    rw [updateFirst_decomp _ _ l₁ w l₂ h1 hpw] at hdb2
    rw [hdb2]
    refine ⟨rfl, rfl, ?_, ?_, ?_⟩
    · show (l₁ ++ { user := w.user, choice := cid } :: l₂).filter
          (isVoteFor db.choices u qid) = _
      rw [hfw, filter_decomp_eq _ _ _ _ h1 h2 pnew]
    · intro x
      rw [hz, hdec]
      simp only [List.countP_append, List.countP_cons, List.countP_nil, beq_iff_eq]
      split_ifs <;> omega
    · intro hone
      rw [hz] at hone
      have hwone : w = { user := u, choice := cid } := by
        simpa using hone
      have hfix : ({ user := w.user, choice := cid } : Vote) = w := by
        rw [hwone]
      show DB.mk db.questions db.choices (l₁ ++ { user := w.user, choice := cid } :: l₂) = db
      rw [hfix, ← hdec]

/-! Claim theorems. -/

/-- The spec's wording of the voting window, kept separate from the code's
`Question.can_vote` for refinement comparison: with `end_date` set, the
closed interval `[pub_date, end_date]`; otherwise all instants from
`pub_date` on. -/
def canVoteSpec (q : Question) (now : Time) : Prop :=
  match q.end_date with
  | some e => q.pub_date ≤ now ∧ now ≤ e
  | none => q.pub_date ≤ now

/-- C2: for every question and time, `can_vote` returns true exactly on the
closed interval `[pub_date, end_date]` when `end_date` is set, and exactly
on `[pub_date, ∞)` when it is not. -/
theorem claim2_can_vote_window (q : Question) (now : Time) :
    q.can_vote now = true ↔ canVoteSpec q now := by
  cases h : q.end_date <;> simp [Question.can_vote, canVoteSpec, h]

/-- C7: `is_published` is monotone in the current time — once a question is
published, later instants keep it published. -/
theorem claim7_is_published_monotone (q : Question) (t1 t2 : Time)
    (hle : t1 ≤ t2) (h1 : q.is_published t1 = true) :
    q.is_published t2 = true := by
  unfold Question.is_published at h1 ⊢
  simp only [ge_iff_le, decide_eq_true_eq] at h1 ⊢
  exact le_trans h1 hle

/-- Witness for C7 at a concrete question and pair of times. -/
theorem claim7_witness :
    ((0 : Time) ≤ 1 ∧ (Question.mk 1 "q" 0 none).is_published 0 = true) ∧
      (Question.mk 1 "q" 0 none).is_published 1 = true :=
  ⟨⟨by decide, by decide⟩,
    claim7_is_published_monotone (Question.mk 1 "q" 0 none) 0 1 (by decide) (by decide)⟩

/-- C9: `Choice.votes` is the number of Vote rows referencing the choice,
recomputed from the Vote table on each read — it depends only on the Vote
table and the choice's primary key, never on a stored counter field. -/
theorem claim9_votes_derived (db : DB) (c : Choice) :
    c.votes db = db.votes.countP (fun v => v.choice == c.id) ∧
    (∀ db2 c2, db2.votes = db.votes → c2.id = c.id → Choice.votes c2 db2 = c.votes db) := by
  constructor
  · rw [Choice.votes, List.countP_eq_length_filter]
  · intro db2 c2 hv hid
    rw [Choice.votes, Choice.votes, hv, hid]

/-- Witness for C9: two choices agreeing on the id have the same count over
the same Vote table, regardless of their other fields. -/
theorem claim9_witness :
    Choice.votes (Choice.mk 1 2 "b") (DB.mk [] [] [Vote.mk 7 1]) =
      Choice.votes (Choice.mk 1 1 "a") (DB.mk [] [] [Vote.mk 7 1]) :=
  (claim9_votes_derived (DB.mk [] [] [Vote.mk 7 1]) (Choice.mk 1 1 "a")).2
    (DB.mk [] [] [Vote.mk 7 1]) (Choice.mk 1 2 "b") rfl rfl

/-- C8: the `vote` view checks its preconditions in source order — missing
question, closed voting, missing choice id, foreign choice — each failing
check returns immediately (for every value of the data only later checks
would read), and every run ends in one of the four enumerated outcomes, so
no precondition failure escapes as an unhandled error. -/
theorem claim8_precondition_order (db : DB) (u qid : Nat) (cid : Option Nat) (now : Time) :
    (getQuestion db qid = none → (vote db u qid cid now).1 = .notFound) ∧
    (∀ q, getQuestion db qid = some q → q.can_vote now = false →
      (vote db u qid cid now).1 = .redirectIndex) ∧
    (∀ q, getQuestion db qid = some q → q.can_vote now = true → cid = none →
      (vote db u qid cid now).1 = .renderDetailError "You didn't select a choice.") ∧
    (∀ q c, getQuestion db qid = some q → q.can_vote now = true → cid = some c →
      db.choices.find? (fun ch => ch.id == c && ch.question == q.id) = none →
      (vote db u qid cid now).1 = .renderDetailError "Invalid choice selected.") ∧
    ((vote db u qid cid now).1 = .notFound ∨ (vote db u qid cid now).1 = .redirectIndex ∨
      (∃ e, (vote db u qid cid now).1 = .renderDetailError e) ∨
      (∃ rq m, (vote db u qid cid now).1 = .redirectResults rq m)) := by
  refine ⟨?_, ?_, ?_, ?_, ?_⟩
  · intro h
    simp [vote, h]
  · intro q hq hcv
    simp [vote, hq, hcv]
  · intro q hq hcv hcid
    subst hcid
    simp [vote, hq, hcv]
  · intro q c hq hcv hcid hfc
    subst hcid
    simp [vote, hq, hcv, hfc]
  · rcases hres : (vote db u qid cid now).1 with _ | _ | e | ⟨rq, m⟩
    · exact Or.inl rfl
    · exact Or.inr (Or.inl rfl)
    · exact Or.inr (Or.inr (Or.inl ⟨e, rfl⟩))
    · exact Or.inr (Or.inr (Or.inr ⟨rq, m, rfl⟩))

/-- Witness for C8: each precondition failure observed on concrete states. -/
theorem claim8_witness :
    (vote (DB.mk [Question.mk 1 "a" 0 none, Question.mk 2 "b" 5 none]
        [Choice.mk 1 1 "x"] []) 7 3 (some 1) 0).1 = VoteResult.notFound ∧
    (vote (DB.mk [Question.mk 1 "a" 0 none, Question.mk 2 "b" 5 none]
        [Choice.mk 1 1 "x"] []) 7 2 (some 1) 0).1 = VoteResult.redirectIndex ∧
    (vote (DB.mk [Question.mk 1 "a" 0 none, Question.mk 2 "b" 5 none]
        [Choice.mk 1 1 "x"] []) 7 1 none 0).1
      = VoteResult.renderDetailError "You didn't select a choice." ∧
    (vote (DB.mk [Question.mk 1 "a" 0 none, Question.mk 2 "b" 5 none]
        [Choice.mk 1 1 "x"] []) 7 1 (some 9) 0).1
      = VoteResult.renderDetailError "Invalid choice selected." :=
  ⟨(claim8_precondition_order (DB.mk [Question.mk 1 "a" 0 none, Question.mk 2 "b" 5 none]
      [Choice.mk 1 1 "x"] []) 7 3 (some 1) 0).1 (by decide),
   (claim8_precondition_order (DB.mk [Question.mk 1 "a" 0 none, Question.mk 2 "b" 5 none]
      [Choice.mk 1 1 "x"] []) 7 2 (some 1) 0).2.1 (Question.mk 2 "b" 5 none)
      (by decide) (by decide),
   (claim8_precondition_order (DB.mk [Question.mk 1 "a" 0 none, Question.mk 2 "b" 5 none]
      [Choice.mk 1 1 "x"] []) 7 1 none 0).2.2.1 (Question.mk 1 "a" 0 none)
      (by decide) (by decide) rfl,
   (claim8_precondition_order (DB.mk [Question.mk 1 "a" 0 none, Question.mk 2 "b" 5 none]
      [Choice.mk 1 1 "x"] []) 7 1 (some 9) 0).2.2.2.1 (Question.mk 1 "a" 0 none) 9
      (by decide) (by decide) rfl (by decide)⟩

/-- The C3 claim as stated: a vote submission for an existing question whose
voting window is closed re-renders the question detail page with an error
message. -/
def closedRendersDetail : Prop :=
  ∀ (db : DB) (u qid : Nat) (cid : Option Nat) (now : Time) (q : Question),
    getQuestion db qid = some q → q.can_vote now = false →
    ∃ msg, (vote db u qid cid now).1 = .renderDetailError msg

/-- Counterexample to C3: for a not-yet-open question the `vote` view
redirects to the index page instead of rendering the detail page with a
message. -/
theorem claim3_counterexample : ¬ closedRendersDetail := by
  intro h
  obtain ⟨msg, hmsg⟩ := h (DB.mk [Question.mk 1 "q" 5 none] [] []) 7 1 (some 1) 0
    (Question.mk 1 "q" 5 none) (by decide) (by decide)
  rw [show (vote (DB.mk [Question.mk 1 "q" 5 none] [] []) 7 1 (some 1) 0).1
      = VoteResult.redirectIndex from by decide] at hmsg
  simp at hmsg

/-- C3 amended: a vote submission for an existing question with `can_vote`
false fails with VotingClosed by silently redirecting to the index page,
leaving the database unchanged; no detail page and no error message are
produced on this path. -/
theorem claim3_closed_redirects_index (db : DB) (u qid : Nat) (cid : Option Nat)
    (now : Time) (q : Question) (hq : getQuestion db qid = some q)
    (hcv : q.can_vote now = false) :
    vote db u qid cid now = (.redirectIndex, db) := by
  simp [vote, hq, hcv]

/-- Witness for the amended C3 at a concrete closed question. -/
theorem claim3_witness :
    vote (DB.mk [Question.mk 1 "q" 5 none] [] []) 7 1 (some 1) 0
      = (VoteResult.redirectIndex, DB.mk [Question.mk 1 "q" 5 none] [] []) :=
  claim3_closed_redirects_index (DB.mk [Question.mk 1 "q" 5 none] [] []) 7 1 (some 1) 0
    (Question.mk 1 "q" 5 none) (by decide) (by decide)

/-- The C4 claim as stated: every list the index query may return breaks
`pub_date` ties by ascending id (insertion order). -/
def indexTieBrokenById : Prop :=
  ∀ (db : DB) (now : Time) (out : List Question), IsIndexQueryset db now out →
    out.Chain' (fun a b => b.pub_date < a.pub_date ∨ (a.pub_date = b.pub_date ∧ a.id < b.id))

/-- Counterexample to C4: the query orders by `pub_date` only, so with two
questions sharing a `pub_date` the id-descending arrangement is also a valid
query result, and it violates the claimed tie-break. -/
theorem claim4_counterexample : ¬ indexTieBrokenById := by
  intro h
  have hq : IsIndexQueryset
      (DB.mk [Question.mk 1 "a" 0 none, Question.mk 2 "b" 0 none] [] []) 0
      [Question.mk 2 "b" 0 none, Question.mk 1 "a" 0 none] := by
    constructor
    · decide
    · simp [sortedByPubDateDesc, List.chain'_cons]
  have := h (DB.mk [Question.mk 1 "a" 0 none, Question.mk 2 "b" 0 none] [] []) 0
    [Question.mk 2 "b" 0 none, Question.mk 1 "a" 0 none] hq
  simp [List.chain'_cons] at this

/-- C4 amended: the index listing contains exactly the questions with
`pub_date <= now` (with multiplicity) and is sorted by `pub_date`
descending; the relative order of questions sharing a `pub_date` is left
unspecified because the query has no secondary sort key. -/
theorem claim4_index_content_sorted (db : DB) (now : Time) (out : List Question)
    (h : IsIndexQueryset db now out) :
    (∀ q, q ∈ out ↔ q ∈ db.questions ∧ q.pub_date ≤ now) ∧
    out.length = (indexFilter db now).length ∧
    sortedByPubDateDesc out := by
  refine ⟨fun q => ?_, h.1.length_eq, h.2⟩
  rw [h.1.mem_iff, indexFilter, List.mem_filter]
  simp

/-- Witness for the amended C4 at a concrete database and time. -/
theorem claim4_witness :
    IsIndexQueryset (DB.mk [Question.mk 1 "a" 0 none, Question.mk 2 "b" 5 none] [] []) 0
      [Question.mk 1 "a" 0 none] ∧
    (∀ q, q ∈ [Question.mk 1 "a" 0 none] ↔
      q ∈ (DB.mk [Question.mk 1 "a" 0 none, Question.mk 2 "b" 5 none] [] []).questions ∧
        q.pub_date ≤ 0) := by
  have hq : IsIndexQueryset
      (DB.mk [Question.mk 1 "a" 0 none, Question.mk 2 "b" 5 none] [] []) 0
      [Question.mk 1 "a" 0 none] := by
    constructor
    · decide
    · simp [sortedByPubDateDesc]
  exact ⟨hq, (claim4_index_content_sorted
    (DB.mk [Question.mk 1 "a" 0 none, Question.mk 2 "b" 5 none] [] []) 0
    [Question.mk 1 "a" 0 none] hq).1⟩

theorem voteApp_session (st : AppState) (u qid : Nat) (cid : Option Nat) (now : Time) :
    (voteApp st u qid cid now).2.session = st.session := by
  rcases h : vote st.db u qid cid now with ⟨r, db2⟩
  rcases r <;> simp [voteApp, h]

theorem applyVotes_session (st : AppState) (reqs : List VoteReq) :
    (applyVotes st reqs).session = st.session := by
  induction reqs generalizing st with
  | nil => rfl
  | cons r rest ih =>
    rcases r with ⟨u, qid, cid, now⟩
    rw [applyVotes, ih]
    exact voteApp_session st u qid cid now

/-- C10: after any sequence of vote submissions from a session holding no
`voted_for_` key, the session is unchanged (no operation writes such a key),
so the results view's `voted_choice` is always `None`; the success
confirmation instead lands in the messages queue. -/
theorem claim10_no_session_confirmation (st : AppState) (reqs : List VoteReq) (qid : Nat)
    (hclean : ∀ n : Nat, st.session.lookup ("voted_for_" ++ toString n) = none) :
    (applyVotes st reqs).session = st.session ∧
    (∀ q r, results (applyVotes st reqs) qid = some (q, r) → r = none) ∧
    (∀ u2 qid2 cid2 now2 rq m, (voteApp st u2 qid2 cid2 now2).1 = .redirectResults rq m →
      (voteApp st u2 qid2 cid2 now2).2.messages = st.messages ++ [m]) := by
  refine ⟨applyVotes_session st reqs, ?_, ?_⟩
  · intro q r h
    rw [results] at h
    rcases hq : getQuestion (applyVotes st reqs).db qid with _ | question
    · rw [hq] at h
      simp at h
    · rw [hq] at h
      simp only [Option.some.injEq, Prod.mk.injEq] at h
      rw [← h.2, applyVotes_session st reqs]
      exact hclean question.id
  · intro u2 qid2 cid2 now2 rq m hm
    rcases h : vote st.db u2 qid2 cid2 now2 with ⟨r, db2⟩
    rcases r with _ | _ | e | ⟨rq2, m2⟩
    · simp [voteApp, h] at hm
    · simp [voteApp, h] at hm
    · simp [voteApp, h] at hm
    · simp only [voteApp, h] at hm ⊢
      simp only [VoteResult.redirectResults.injEq] at hm
      rw [hm.2]

/-- Witness for C10: one successful vote from an empty session leaves the
session empty, the results view reports no `voted_choice`, and the
confirmation message is queued. -/
theorem claim10_witness :
    (applyVotes (AppState.mk (DB.mk [Question.mk 1 "a" 0 none] [Choice.mk 1 1 "x"] []) [] [])
        [(7, 1, some 1, 0)]).session = [] ∧
    (∀ q r, results (applyVotes
        (AppState.mk (DB.mk [Question.mk 1 "a" 0 none] [Choice.mk 1 1 "x"] []) [] [])
        [(7, 1, some 1, 0)]) 1 = some (q, r) → r = none) ∧
    (∀ u2 qid2 cid2 now2 rq m,
      (voteApp (AppState.mk (DB.mk [Question.mk 1 "a" 0 none] [Choice.mk 1 1 "x"] []) [] [])
          u2 qid2 cid2 now2).1 = .redirectResults rq m →
      (voteApp (AppState.mk (DB.mk [Question.mk 1 "a" 0 none] [Choice.mk 1 1 "x"] []) [] [])
          u2 qid2 cid2 now2).2.messages = [] ++ [m]) :=
  claim10_no_session_confirmation
    (AppState.mk (DB.mk [Question.mk 1 "a" 0 none] [Choice.mk 1 1 "x"] []) [] [])
    [(7, 1, some 1, 0)] 1 (fun _ => rfl)

/-- C5: voting is idempotent — a second successful submission of the same
choice leaves the database exactly as after the first, and the user's single
current row points at that choice. -/
theorem claim5_idempotent (db : DB) (u qid cid : Nat) (now1 now2 : Time)
    (hnd : (db.choices.map Choice.id).Nodup)
    (hcount : (userQVotes db u qid).length ≤ 1)
    (h1 : (vote db u qid (some cid) now1).1.isSuccess = true)
    (h2 : (vote (vote db u qid (some cid) now1).2 u qid (some cid) now2).1.isSuccess = true) :
    (vote (vote db u qid (some cid) now1).2 u qid (some cid) now2).2
      = (vote db u qid (some cid) now1).2 ∧
    userQVotes (vote (vote db u qid (some cid) now1).2 u qid (some cid) now2).2 u qid
      = [{ user := u, choice := cid }] := by
  obtain ⟨hq1, hc1, hf1, hcnt1, hfix1⟩ :=
    vote_step db u qid cid now1 hnd (by simpa [userQVotes] using hcount) h1
  have hf1c : (vote db u qid (some cid) now1).2.votes.filter
      (isVoteFor (vote db u qid (some cid) now1).2.choices u qid)
      = [{ user := u, choice := cid }] := by
    rw [hc1]
    exact hf1
  have hnd1 : ((vote db u qid (some cid) now1).2.choices.map Choice.id).Nodup := by
    rw [hc1]
    exact hnd
  have hcount1 : ((vote db u qid (some cid) now1).2.votes.filter
      (isVoteFor (vote db u qid (some cid) now1).2.choices u qid)).length ≤ 1 := by
    rw [hf1c]
    simp
  obtain ⟨hq2, hc2, hf2, hcnt2, hfix2⟩ :=
    vote_step (vote db u qid (some cid) now1).2 u qid cid now2 hnd1 hcount1 h2
  have hsame := hfix2 hf1c
  refine ⟨hsame, ?_⟩
  rw [userQVotes, hsame, hc1]
  exact hf1

/-- Witness for C5: a concrete double submission of the same choice. -/
theorem claim5_witness :
    (vote (vote (DB.mk [Question.mk 1 "a" 0 none] [Choice.mk 1 1 "x"] []) 7 1 (some 1) 0).2
        7 1 (some 1) 0).2
      = (vote (DB.mk [Question.mk 1 "a" 0 none] [Choice.mk 1 1 "x"] []) 7 1 (some 1) 0).2 ∧
    userQVotes (vote (vote (DB.mk [Question.mk 1 "a" 0 none] [Choice.mk 1 1 "x"] [])
        7 1 (some 1) 0).2 7 1 (some 1) 0).2 7 1
      = [{ user := 7, choice := 1 }] :=
  claim5_idempotent (DB.mk [Question.mk 1 "a" 0 none] [Choice.mk 1 1 "x"] []) 7 1 1 0 0
    (by decide) (by decide) (by decide) (by decide)

theorem submitAll_inv (subs : List (Nat × Time)) (db : DB) (u qid : Nat)
    (hnd : (db.choices.map Choice.id).Nodup)
    (hcount : (db.votes.filter (isVoteFor db.choices u qid)).length ≤ 1)
    (hall : allSucceed db u qid subs = true) :
    (submitAll db u qid subs).questions = db.questions ∧
    (submitAll db u qid subs).choices = db.choices ∧
    ((submitAll db u qid subs).votes.filter (isVoteFor db.choices u qid)).length ≤ 1 ∧
    (∀ last, subs.getLast? = some last →
      (submitAll db u qid subs).votes.filter (isVoteFor db.choices u qid)
        = [{ user := u, choice := last.1 }]) := by
  induction subs generalizing db with
  | nil =>
    refine ⟨rfl, rfl, hcount, fun last h => ?_⟩
    simp at h
  | cons s rest ih =>
    rcases s with ⟨cid, now⟩
    rw [allSucceed, Bool.and_eq_true] at hall
    obtain ⟨hs1, hrest⟩ := hall
    obtain ⟨hq1, hc1, hf1, _, _⟩ := vote_step db u qid cid now hnd hcount hs1
    have hnd1 : ((vote db u qid (some cid) now).2.choices.map Choice.id).Nodup := by
      rw [hc1]
      exact hnd
    have hf1c : (vote db u qid (some cid) now).2.votes.filter
        (isVoteFor (vote db u qid (some cid) now).2.choices u qid)
        = [{ user := u, choice := cid }] := by
      rw [hc1]
      exact hf1
    have hcount1 : ((vote db u qid (some cid) now).2.votes.filter
        (isVoteFor (vote db u qid (some cid) now).2.choices u qid)).length ≤ 1 := by
      rw [hf1c]
      simp
    obtain ⟨ihq, ihc, ihlen, ihlast⟩ :=
      ih (vote db u qid (some cid) now).2 hnd1 hcount1 hrest
    rw [hc1] at ihc ihlen ihlast
    rw [submitAll]
    refine ⟨ihq.trans hq1, ihc, ihlen, ?_⟩
    intro last hlast
    rcases rest with _ | ⟨r, rest2⟩
    · simp only [List.getLast?_singleton, Option.some.injEq] at hlast
      subst hlast
      exact hf1
    · rw [List.getLast?_cons_cons] at hlast
      exact ihlast last hlast

/-- C1: starting from a state respecting the one-row-per-(user, question)
invariant, any sequence of successful submissions by `u` for question `qid`
keeps at most one Vote row of `u` for `qid`, and after a nonempty sequence
that single row points at the most recently submitted choice. -/
theorem claim1_single_current_vote (db : DB) (u qid : Nat) (subs : List (Nat × Time))
    (hnd : (db.choices.map Choice.id).Nodup)
    (hcount : (userQVotes db u qid).length ≤ 1)
    (hall : allSucceed db u qid subs = true) :
    (userQVotes (submitAll db u qid subs) u qid).length ≤ 1 ∧
    (∀ last, subs.getLast? = some last →
      userQVotes (submitAll db u qid subs) u qid = [{ user := u, choice := last.1 }]) := by
  obtain ⟨hq, hc, hlen, hlast⟩ :=
    submitAll_inv subs db u qid hnd (by simpa [userQVotes] using hcount) hall
  constructor
  · rw [userQVotes, hc]
    exact hlen
  · intro last h
    rw [userQVotes, hc]
    exact hlast last h

/-- Witness for C1: two successful submissions for different choices leave
one row pointing at the last. -/
theorem claim1_witness :
    (userQVotes (submitAll (DB.mk [Question.mk 1 "a" 0 none]
        [Choice.mk 1 1 "x", Choice.mk 2 1 "y"] []) 7 1 [(1, 0), (2, 0)]) 7 1).length ≤ 1 ∧
    userQVotes (submitAll (DB.mk [Question.mk 1 "a" 0 none]
        [Choice.mk 1 1 "x", Choice.mk 2 1 "y"] []) 7 1 [(1, 0), (2, 0)]) 7 1
      = [{ user := 7, choice := 2 }] :=
  ⟨(claim1_single_current_vote (DB.mk [Question.mk 1 "a" 0 none]
      [Choice.mk 1 1 "x", Choice.mk 2 1 "y"] []) 7 1 [(1, 0), (2, 0)]
      (by decide) (by decide) (by decide)).1,
   (claim1_single_current_vote (DB.mk [Question.mk 1 "a" 0 none]
      [Choice.mk 1 1 "x", Choice.mk 2 1 "y"] []) 7 1 [(1, 0), (2, 0)]
      (by decide) (by decide) (by decide)).2 (2, 0) (by decide)⟩

/-- C6: switching a vote — after successfully voting for choice A and then
for a different choice B (with any pre-existing row of the user for this
question pointing at neither), the user has exactly one row, at B; A's count
returns to its value before either vote, B's count grows by exactly one. -/
theorem claim6_vote_switching (db : DB) (u qid : Nat) (A B : Choice) (now1 now2 : Time)
    (hnd : (db.choices.map Choice.id).Nodup)
    (hAB : A.id ≠ B.id)
    (hcount : (userQVotes db u qid).length ≤ 1)
    (hprior : ∀ v ∈ db.votes, isVoteFor db.choices u qid v = true →
      v.choice ≠ A.id ∧ v.choice ≠ B.id)
    (h1 : (vote db u qid (some A.id) now1).1.isSuccess = true)
    (h2 : (vote (vote db u qid (some A.id) now1).2 u qid (some B.id) now2).1.isSuccess = true) :
    userQVotes (vote (vote db u qid (some A.id) now1).2 u qid (some B.id) now2).2 u qid
      = [{ user := u, choice := B.id }] ∧
    Choice.votes A (vote (vote db u qid (some A.id) now1).2 u qid (some B.id) now2).2
      = Choice.votes A db ∧
    Choice.votes B (vote (vote db u qid (some A.id) now1).2 u qid (some B.id) now2).2
      = Choice.votes B db + 1 := by
  obtain ⟨hq1, hc1, hf1, hcnt1, _⟩ :=
    vote_step db u qid A.id now1 hnd (by simpa [userQVotes] using hcount) h1
  have hnd1 : ((vote db u qid (some A.id) now1).2.choices.map Choice.id).Nodup := by
    rw [hc1]
    exact hnd
  have hf1c : (vote db u qid (some A.id) now1).2.votes.filter
      (isVoteFor (vote db u qid (some A.id) now1).2.choices u qid)
      = [{ user := u, choice := A.id }] := by
    rw [hc1]
    exact hf1
  have hcount1 : ((vote db u qid (some A.id) now1).2.votes.filter
      (isVoteFor (vote db u qid (some A.id) now1).2.choices u qid)).length ≤ 1 := by
    rw [hf1c]
    simp
  obtain ⟨hq2, hc2, hf2, hcnt2, _⟩ :=
    vote_step (vote db u qid (some A.id) now1).2 u qid B.id now2 hnd1 hcount1 h2
  have hBA : B.id ≠ A.id := Ne.symm hAB
  have hstep1 :
      (vote db u qid (some A.id) now1).2.votes.countP (fun v => v.choice == A.id)
        = db.votes.countP (fun v => v.choice == A.id) + 1 ∧
      (vote db u qid (some A.id) now1).2.votes.countP (fun v => v.choice == B.id)
        = db.votes.countP (fun v => v.choice == B.id) := by
    have h1A := hcnt1 A.id
    have h1B := hcnt1 B.id
    rcases hfl : db.votes.filter (isVoteFor db.choices u qid) with _ | ⟨w, tl⟩
    · simp only [hfl] at h1A h1B
      constructor
      · simpa using h1A
      · simpa [hAB] using h1B
    · have hw : w ∈ db.votes.filter (isVoteFor db.choices u qid) := by
        rw [hfl]
        exact List.mem_cons_self w tl
      have hw2 := List.mem_filter.mp hw
      have hwp := hprior w hw2.1 hw2.2
      simp only [hfl] at h1A h1B
      constructor
      · simpa [hwp.1] using h1A
      · simpa [hwp.2, hAB] using h1B
  have hstep2 :
      (vote (vote db u qid (some A.id) now1).2 u qid (some B.id) now2).2.votes.countP
          (fun v => v.choice == A.id) + 1
        = (vote db u qid (some A.id) now1).2.votes.countP (fun v => v.choice == A.id) ∧
      (vote (vote db u qid (some A.id) now1).2 u qid (some B.id) now2).2.votes.countP
          (fun v => v.choice == B.id)
        = (vote db u qid (some A.id) now1).2.votes.countP (fun v => v.choice == B.id) + 1 := by
    have h2A := hcnt2 A.id
    have h2B := hcnt2 B.id
    simp only [hf1c] at h2A h2B
    constructor
    · simpa [hBA] using h2A
    · simpa [hAB] using h2B
  refine ⟨by rw [userQVotes, hc2]; exact hf2, ?_, ?_⟩
  · simp only [Choice.votes, ← List.countP_eq_length_filter]
    exact Nat.add_right_cancel (hstep2.1.trans hstep1.1)
  · simp only [Choice.votes, ← List.countP_eq_length_filter]
    rw [hstep2.2, hstep1.2]

/-- Witness for C6: a concrete A-then-B switch on a fresh state. -/
theorem claim6_witness :
    userQVotes (vote (vote (DB.mk [Question.mk 1 "a" 0 none]
        [Choice.mk 1 1 "x", Choice.mk 2 1 "y"] []) 7 1 (some 1) 0).2 7 1 (some 2) 0).2 7 1
      = [{ user := 7, choice := 2 }] ∧
    Choice.votes (Choice.mk 1 1 "x") (vote (vote (DB.mk [Question.mk 1 "a" 0 none]
        [Choice.mk 1 1 "x", Choice.mk 2 1 "y"] []) 7 1 (some 1) 0).2 7 1 (some 2) 0).2
      = Choice.votes (Choice.mk 1 1 "x") (DB.mk [Question.mk 1 "a" 0 none]
        [Choice.mk 1 1 "x", Choice.mk 2 1 "y"] []) ∧
    Choice.votes (Choice.mk 2 1 "y") (vote (vote (DB.mk [Question.mk 1 "a" 0 none]
        [Choice.mk 1 1 "x", Choice.mk 2 1 "y"] []) 7 1 (some 1) 0).2 7 1 (some 2) 0).2
      = Choice.votes (Choice.mk 2 1 "y") (DB.mk [Question.mk 1 "a" 0 none]
        [Choice.mk 1 1 "x", Choice.mk 2 1 "y"] []) + 1 :=
  claim6_vote_switching (DB.mk [Question.mk 1 "a" 0 none]
      [Choice.mk 1 1 "x", Choice.mk 2 1 "y"] []) 7 1
    (Choice.mk 1 1 "x") (Choice.mk 2 1 "y") 0 0
    (by decide) (by decide) (by decide)
    (fun v hv _ => absurd hv (List.not_mem_nil v))
    (by decide) (by decide)

end KuPolls
